import Mathlib

/-!
Verification of the HadoopFS adapter (`fs/hadoop.py`) against its design
specification.  The Python source is shallowly embedded: pure path helpers
become functions on `String` (computed over `List Char`), the remote WebHDFS
store becomes an explicit `Store` value, each remote call is logged in a
trace, and exceptions become `Except` values.
-/

set_option linter.unusedVariables false
set_option linter.unusedTactic false

/-! ## Path manipulation (character level)

`fs.path.normpath` and friends are part of the repository but not in the
sources under verification, so they are modelled from the specification.
All string work is done on `List Char` so that proofs can proceed by list
induction.
-/

/-- Split a character list on `'/'` separators (Python `str.split("/")`):
`""` yields `[""]`, `"/"` yields `["", ""]`, `"a/b"` yields `["a", "b"]`. -/
def splitSlash : List Char → List (List Char)
  | [] => [[]]
  | c :: rest =>
    if c = '/' then [] :: splitSlash rest
    else
      match splitSlash rest with
      | [] => [[c]]
      | p :: ps => (c :: p) :: ps

/-- Join path components with `'/'` separators (Python `"/".join`). -/
def joinSlash : List (List Char) → List Char
  | [] => []
  | [p] => p
  | p :: q :: ps => p ++ '/' :: joinSlash (q :: ps)

/-- Modelled from the spec: the segment-collapsing core of `fs.path.normpath`
(§4.1; `fs.path` is not under `src/`).  Empty and `"."` segments are dropped,
`".."` pops the previous segment, and popping past the root leaves the root
("malformed input normalizes to the root"). -/
def normSegs (acc : List (List Char)) : List (List Char) → List (List Char)
  | [] => acc.reverse
  | c :: rest =>
    if c = [] ∨ c = ['.'] then normSegs acc rest
    else if c = ['.', '.'] then normSegs acc.tail rest
    else normSegs (c :: acc) rest

/-- Modelled from the spec: `fs.path.normpath` on a character list.  An
absolute input keeps its leading separator; segments are collapsed by
`normSegs`. -/
def normChars (l : List Char) : List Char :=
  let comps := normSegs [] (splitSlash l)
  if l.head? = some '/' then '/' :: joinSlash comps else joinSlash comps

/-- Modelled from the spec: `fs.path.normpath` (not under `src/`). -/
def normpath (s : String) : String := ⟨normChars s.data⟩

/-- Python `str.lstrip("/")`: drop every leading `'/'`. -/
def lstripSlash (s : String) : String := ⟨s.data.dropWhile (· = '/')⟩

/-- Python `os.path.join` restricted to two components, on characters. -/
def joinChars (a b : List Char) : List Char :=
  if b.head? = some '/' then b
  else if a = [] then b
  else if a.getLast? = some '/' then a ++ b
  else a ++ '/' :: b

/-- Python `os.path.join(a, b)`. -/
def osPathJoin (a b : String) : String := ⟨joinChars a.data b.data⟩

/-- `HadoopFS._base` (src/fs/hadoop.py:409-421): prefix a caller path with
the configured base, normalize, and strip leading separators. -/
def _base (base : String) (path : String) : String :=
  let p := lstripSlash path
  if base = "" then normpath p
  else lstripSlash (normpath (osPathJoin base p))

example : _base "/svc" "/a" = "svc/a" := by decide
example : _base "/svc" (_base "/svc" "/a") = "svc/svc/a" := by decide
example : _base "/" "/a/b" = "a/b" := by decide
example : _base "/" "" = "" := by decide
example : _base "/svc" "." = "svc" := by decide
example : _base "/svc" "/" = "svc" := by decide

/-- Python `os.path.dirname` on characters: everything before the last
separator, with trailing separators of the head stripped unless the head is
all separators. -/
def dirnameChars (l : List Char) : List Char :=
  let rev := l.reverse
  let headRev := rev.dropWhile (· ≠ '/')
  if headRev = [] then []
  else
    let head := headRev.reverse
    if head.all (· = '/') then head
    else (head.reverse.dropWhile (· = '/')).reverse

/-- Python `os.path.dirname(path)` (also the head of `os.path.split`). -/
def dirname (s : String) : String := ⟨dirnameChars s.data⟩

example : dirname "/a/b" = "/a" := by decide
example : dirname "/a" = "/" := by decide
example : dirname "a/b" = "a" := by decide
example : dirname "a" = "" := by decide
example : dirname "" = "" := by decide

/-- Non-empty `'/'`-separated segments of a path. -/
def pathSegs (p : String) : List String :=
  ((splitSlash p.data).filter (· ≠ [])).map (fun l => (⟨l⟩ : String))

/-- The proper ancestors of a slash-free remote path, shortest first:
`strictAncestors "a/b/c" = ["a", "a/b"]`. -/
def strictAncestors (p : String) : List String :=
  let segs := pathSegs p
  (List.range segs.length).filterMap (fun n =>
    if n = 0 then none else some (String.intercalate "/" (segs.take n)))

example : strictAncestors "a/b/c" = ["a", "a/b"] := by decide
example : strictAncestors "a" = [] := by decide

/-- Modelled from the spec: `fs.path.recursepath(path, reverse=True)`
(`fs.path` is not under `src/`).  §4.3 describes the upward cleanup walk:
the ancestor chain of the removed path, deepest first, down to the root
(the loop in `removedir` separately skips the root). -/
def recursepathRev (p : String) : List String :=
  let segs := pathSegs p
  ((List.range segs.length).filterMap (fun n =>
    if n = 0 then none
    else some ("/" ++ String.intercalate "/" (segs.take n)))).reverse ++ ["/"]

example : recursepathRev "/a/b/c" = ["/a/b", "/a", "/"] := by decide
example : recursepathRev "/a" = ["/"] := by decide

/-- Modelled from the spec: `fs.path.isprefix` (not under `src/`) — whether
the first path is a path-wise ancestor-or-equal of the second (§4.4: "the
resolved destination path is prefixed by the resolved source path"). -/
def isprefixPath (p1 p2 : String) : Bool :=
  (pathSegs p1).isPrefixOf (pathSegs p2)

example : isprefixPath "a" "a/b/c" = true := by decide
example : isprefixPath "a/b" "a" = false := by decide
example : isprefixPath "a" "ab" = false := by decide

/-- Is `needle` a leading run of `hay`? -/
def isPrefixList : List Char → List Char → Bool
  | [], _ => true
  | _ :: _, [] => false
  | a :: as, b :: bs => a = b && isPrefixList as bs

/-- Does `hay` contain `needle` as a contiguous run (Python `needle in hay`)? -/
def containsSub (needle : List Char) : List Char → Bool
  | [] => needle.isEmpty
  | c :: rest => isPrefixList needle (c :: rest) || containsSub needle rest

/-- Python `needle in hay` on strings. -/
def strContains (hay needle : String) : Bool := containsSub needle.data hay.data

example : strContains "dir /x is non empty." "is non empty" = true := by decide
example : strContains "all fine" "is non empty" = false := by decide

/-! ## Error taxonomy and remote error translation -/

/-- The `fs.errors` exceptions raised by the adapter (the spec's ErrorKind
taxonomy).  Constructors carry exactly the payloads the source passes. -/
inductive FSErr where
  | resourceNotFound
  | resourceInvalid (msg : Option String)
  | parentDirectoryMissing (which : Option String)
  | destinationExists (path : String)
  | removeRoot (path : String)
  | directoryNotEmpty (msg : String)
  | resourceLocked (msg : String)
  | fsError (msg : String)
deriving DecidableEq, Repr

/-- A remote failure from the `pywebhdfs` layer: either the dedicated
`FileNotFound` exception, or a generic `PyWebHdfsException` whose body
parses to a message and an optional remote exception identifier (an
unparsable body is represented by an empty message and no identifier). -/
inductive RemoteErr where
  | fileNotFound
  | webhdfs (raw : String) (message : String) (exception : Option String)
deriving DecidableEq, Repr

/-- `hdfs_errors` (src/fs/hadoop.py:40-66): translate a remote error payload
to a structured filesystem error.  Matches are tried in source order; an
unmatched payload becomes a generic `FSError` carrying the original body. -/
def hdfs_errors : RemoteErr → FSErr
  | .fileNotFound => .fsError "FileNotFound"
  | .webhdfs raw message exception =>
    if strContains message "is non empty" then .directoryNotEmpty raw
    else if strContains message "Parent path is not a directory" then
      .resourceInvalid (some raw)
    else if exception = some "LeaseExpiredException" ∨
        exception = some "AlreadyBeingCreatedException" ∨
        exception = some "FileAlreadyExistsException" then
      .resourceLocked raw
    else .fsError raw

/-- Modelled from the spec: the §4.6 translation table, rows in table order,
written independently of the source for the refinement comparison. -/
def specErrorTable (raw message : String) (exception : Option String) : FSErr :=
  if strContains message "is non empty" then .directoryNotEmpty raw
  else if strContains message "Parent path is not a directory" then
    .resourceInvalid (some raw)
  else if exception = some "LeaseExpiredException" ∨
      exception = some "AlreadyBeingCreatedException" ∨
      exception = some "FileAlreadyExistsException" then
    .resourceLocked raw
  else .fsError raw

/-- The message an `FSErr` carries for diagnostics, when it carries one. -/
def carriedMsg : FSErr → Option String
  | .resourceInvalid m => m
  | .directoryNotEmpty m => some m
  | .resourceLocked m => some m
  | .fsError m => some m
  | _ => none

/-! ## The remote store and the `pywebhdfs` client

Modelled from the spec: the WebHDFS remote service is an external
collaborator specified only at its boundary (§6).  The namespace is a flat
association list from slash-free absolute paths to a kind and a content
string; `statusFaults` lists paths whose metadata call fails with an
unclassified transport error (to exercise error paths). -/

/-- Resource kind, the `type` field of a remote FileStatus. -/
inductive RType where
  | file
  | directory
deriving DecidableEq, Repr

/-- The fields of a remote FileStatus the adapter consults (the source also
copies the timestamps under friendlier keys; no claim touches them). -/
structure FileStatus where
  rtype : RType
  length : Nat
deriving DecidableEq, Repr

/-- The remote namespace plus injectable metadata faults. -/
structure Store where
  entries : List (String × RType × String)
  statusFaults : List String
deriving DecidableEq, Repr

/-- Kind and content recorded for a path, if any. -/
def Store.lookupEntry (st : Store) (p : String) : Option (RType × String) :=
  st.entries.lookup p

/-- Kind recorded for a path, if any. -/
def typeAt (st : Store) (p : String) : Option RType :=
  (st.entries.lookup p).map (·.1)

/-- The FileStatus the remote would report for a path, if it exists. -/
def remoteStat (st : Store) (p : String) : Option FileStatus :=
  (st.entries.lookup p).map (fun v => ⟨v.1, v.2.length⟩)

/-- One remote call, as logged in a trace. -/
inductive Call where
  | getStatus (p : String)
  | listDir (p : String)
  | makeDir (p : String)
  | delete (p : String) (recursive : Bool)
  | rename (src dst : String)
  | create (p : String) (overwrite : Bool)
  | append (p : String)
  | readF (p : String)
deriving DecidableEq, Repr

/-- Modelled from the spec: remote `get-status(path)` (§6). -/
def getFileDirStatus (st : Store) (p : String) : Except RemoteErr FileStatus :=
  if p ∈ st.statusFaults then .error (.webhdfs "injected fault" "injected fault" none)
  else
    match remoteStat st p with
    | some s => .ok s
    | none => .error .fileNotFound

/-- Is `q` strictly below `p` in the namespace? -/
def isUnder (p q : String) : Bool := (p ++ "/").isPrefixOf q

/-- Modelled from the spec: remote `delete(path, recursive)` (§6).  Deleting
a missing path reports an unexceptional remote `false`; a non-recursive
delete of a non-empty directory fails with the familiar "is non empty"
payload; otherwise the entry (and, recursively, its subtree) is removed. -/
def deleteFileDir (st : Store) (p : String) (recursive : Bool) :
    Except RemoteErr Store :=
  match st.entries.lookup p with
  | none => .ok st
  | some (.file, _) =>
    .ok {st with entries := st.entries.filter (fun e => decide (e.1 ≠ p))}
  | some (.directory, _) =>
    if !recursive && st.entries.any (fun e => isUnder p e.1) then
      .error (.webhdfs "is non empty" "is non empty"
        (some "PathIsNotEmptyDirectoryException"))
    else
      .ok {st with entries :=
        st.entries.filter (fun e => decide (e.1 ≠ p) && !isUnder p e.1)}

/-- Does the store hold a file at `p`? -/
def isFileAt (st : Store) (p : String) : Bool :=
  match st.entries.lookup p with
  | some (.file, _) => true
  | _ => false

/-- Record a directory at `p` if nothing is there yet. -/
def addDir (st : Store) (p : String) : Store :=
  match st.entries.lookup p with
  | some _ => st
  | none => {st with entries := st.entries ++ [(p, (RType.directory, ""))]}

/-- Record directories along a list of paths. -/
def addDirs (st : Store) (ps : List String) : Store := ps.foldl addDir st

/-- Modelled from the spec: remote `make-directory(path)` (§6).  WebHDFS
MKDIRS has `mkdir -p` semantics: it creates every missing ancestor, fails
with a "Parent path is not a directory" payload when an ancestor is a file,
and is a no-op on an existing directory. -/
def makeDir (st : Store) (p : String) : Except RemoteErr Store :=
  if (strictAncestors p).any (fun a => isFileAt st a) then
    .error (.webhdfs "Parent path is not a directory"
      "Parent path is not a directory" (some "ParentNotDirectoryException"))
  else
    match st.entries.lookup p with
    | some (.file, _) =>
      .error (.webhdfs "Parent path is not a directory"
        "Parent path is not a directory" (some "ParentNotDirectoryException"))
    | _ => .ok (addDirs st (strictAncestors p ++ [p]))

/-- Replace or append the entry at `p` with a file of the given content. -/
def setFile (st : Store) (p content : String) : Store :=
  match st.entries.lookup p with
  | none => {st with entries := st.entries ++ [(p, (RType.file, content))]}
  | some _ =>
    {st with entries := st.entries.map (fun e =>
      if e.1 = p then (p, (RType.file, content)) else e)}

/-- Modelled from the spec: remote `create(path, content, overwrite)` (§6).
WebHDFS CREATE also creates missing parent directories; it fails when the
target exists and overwrite is off, or when an ancestor is a file. -/
def createFile (st : Store) (p content : String) (overwrite : Bool) :
    Except RemoteErr Store :=
  if (strictAncestors p).any (fun a => isFileAt st a) then
    .error (.webhdfs "Parent path is not a directory"
      "Parent path is not a directory" (some "ParentNotDirectoryException"))
  else
    match st.entries.lookup p with
    | some (.directory, _) =>
      .error (.webhdfs "already a directory" "already a directory"
        (some "FileAlreadyExistsException"))
    | some (.file, _) =>
      if overwrite then .ok (setFile (addDirs st (strictAncestors p)) p content)
      else
        .error (.webhdfs "file already exists" "file already exists"
          (some "FileAlreadyExistsException"))
    | none => .ok (setFile (addDirs st (strictAncestors p)) p content)

/-- Modelled from the spec: remote `append(path, content)` (§6). -/
def appendFile (st : Store) (p data : String) : Except RemoteErr Store :=
  match st.entries.lookup p with
  | some (.file, c) => .ok (setFile st p (c ++ data))
  | some (.directory, _) => .error (.webhdfs "is a directory" "is a directory" none)
  | none => .error .fileNotFound

/-- Modelled from the spec: remote `open-for-read(path)` (§6) returns the
entire content in one shot. -/
def readFile (st : Store) (p : String) : Except RemoteErr String :=
  match st.entries.lookup p with
  | some (.file, c) => .ok c
  | some (.directory, _) => .error (.webhdfs "is a directory" "is a directory" none)
  | none => .error .fileNotFound

/-- Modelled from the spec: remote `rename(src, dest)` (§6).  Renaming a
missing source reports an unexceptional remote `false` (no exception). -/
def renameFileDir (st : Store) (src dst : String) : Except RemoteErr Store :=
  match st.entries.lookup src with
  | none => .ok st
  | some _ =>
    .ok {st with entries := st.entries.map (fun e =>
      if e.1 = src then (dst, e.2)
      else if isUnder src e.1 then (dst ++ e.1.drop src.length, e.2)
      else e)}

/-- Name of a direct child of `p`, if `q` is one. -/
def childNameOf (p q : String) : Option String :=
  let pfx := if p = "" then "" else p ++ "/"
  if q ≠ p && pfx.isPrefixOf q && !(q.drop pfx.length).contains '/' then
    some (q.drop pfx.length)
  else none

/-- Modelled from the spec: remote `list-status(path)` (§6).  Listing a file
yields the single unnamed self-entry WebHDFS reports (empty `pathSuffix`). -/
def listDirRemote (st : Store) (p : String) :
    Except RemoteErr (List (String × FileStatus)) :=
  match st.entries.lookup p with
  | none => .error .fileNotFound
  | some (.file, c) => .ok [("", ⟨RType.file, c.length⟩)]
  | some (.directory, _) =>
    .ok (st.entries.filterMap (fun e =>
      (childNameOf p e.1).map (fun n => (n, ⟨e.2.1, e.2.2.length⟩))))

/-! ## The `HadoopFS` instance and its methods

Each method is a function of the instance state and the remote store; it
returns its result (`Except` for a raised `fs.errors` exception), the
instance state after the call, the store after the call, and the trace of
remote calls it issued, in order. -/

/-- Instance attributes of a `HadoopFS` object.  `base` and `client` are set
at construction; `buffersize` is the attribute `open` assigns when a
buffering value is supplied (absent until then). -/
structure HadoopFSState where
  base : String
  client : Unit
  buffersize : Option Int
deriving DecidableEq, Repr

/-- Did the status dictionary report this kind?  (`{}.get("type")` from a
safe miss compares unequal to both kind strings.) -/
def statusIs (stat : Option FileStatus) (t : RType) : Bool :=
  match stat with
  | some f => decide (f.rtype = t)
  | none => false

/-- `HadoopFS._status` (src/fs/hadoop.py:423-447): one metadata call;
`FileNotFound` becomes an empty status in safe mode and a raised
`ResourceNotFoundError` otherwise; any other remote error is translated by
the `hdfs_errors` decorator. -/
def _status (st : Store) (hdfs_path : String) (safe : Bool) :
    Except FSErr (Option FileStatus) × List Call :=
  let p := lstripSlash hdfs_path
  match getFileDirStatus st p with
  | .ok fstatus => (.ok (some fstatus), [.getStatus p])
  | .error .fileNotFound =>
    if safe then (.ok none, [.getStatus p])
    else (.error .resourceNotFound, [.getStatus p])
  | .error re => (.error (hdfs_errors re), [.getStatus p])

/-- `HadoopFS._is_dir_file` (src/fs/hadoop.py:176-192): one status call
yielding both classification booleans.  The `safe` parameter is accepted but
never forwarded — `_status` is always called with its default `safe=True`. -/
def _is_dir_file (st : Store) (hdfs_path : String) (safe : Bool) :
    Except FSErr (Bool × Bool) × List Call :=
  match _status st hdfs_path true with
  | (.ok stat, t) => (.ok (statusIs stat .directory, statusIs stat .file), t)
  | (.error e, t) => (.error e, t)

/-- `HadoopFS.isdir` (src/fs/hadoop.py:166-174). -/
def isdir (fs : HadoopFSState) (st : Store) (path : String) :
    Except FSErr Bool × List Call :=
  match _status st (_base fs.base path) true with
  | (.ok stat, t) => (.ok (statusIs stat .directory), t)
  | (.error e, t) => (.error e, t)

/-- `HadoopFS.isfile` (src/fs/hadoop.py:156-164). -/
def isfile (fs : HadoopFSState) (st : Store) (path : String) :
    Except FSErr Bool × List Call :=
  match _status st (_base fs.base path) true with
  | (.ok stat, t) => (.ok (statusIs stat .file), t)
  | (.error e, t) => (.error e, t)

/-- `HadoopFS.getinfo` (src/fs/hadoop.py:394-407).  (Strict `_status` never
returns an empty status; that branch is unreachable.) -/
def getinfo (fs : HadoopFSState) (st : Store) (path : String) :
    Except FSErr FileStatus × HadoopFSState × Store × List Call :=
  match _status st (_base fs.base path) false with
  | (.ok (some s), t) => (.ok s, fs, st, t)
  | (.ok none, t) => (.error .resourceNotFound, fs, st, t)
  | (.error e, t) => (.error e, fs, st, t)

/-- `HadoopFS.makedir` (src/fs/hadoop.py:265-298). -/
def makedir (fs : HadoopFSState) (st : Store) (path : String)
    (recursive allow_recreate : Bool) :
    Except FSErr (Option Bool) × HadoopFSState × Store × List Call :=
  match _is_dir_file st (_base fs.base path) true with
  | (.error e, t1) => (.error e, fs, st, t1)
  | (.ok (is_dir, is_file), t1) =>
    if is_dir then
      if !allow_recreate then (.error (.destinationExists path), fs, st, t1)
      else (.ok (some true), fs, st, t1)
    else if is_file then (.error (.resourceInvalid none), fs, st, t1)
    else
      let parent_dir := dirname path
      match isdir fs st parent_dir with
      | (.error e, t2) => (.error e, fs, st, t1 ++ t2)
      | (.ok pd, t2) =>
        if pd || recursive then
          match makeDir st (_base fs.base path) with
          | .ok st2 =>
            (.ok none, fs, st2, t1 ++ t2 ++ [.makeDir (_base fs.base path)])
          | .error re =>
            (.error (hdfs_errors re), fs, st,
              t1 ++ t2 ++ [.makeDir (_base fs.base path)])
        else (.error (.parentDirectoryMissing (some parent_dir)), fs, st, t1 ++ t2)

/-- The upward ancestor-cleanup loop of `removedir`
(src/fs/hadoop.py:350-357): probe each candidate with `isdir` (outside any
handler), attempt a non-recursive delete, and swallow only the delete's
remote exception. -/
def cleanup (fs : HadoopFSState) : Store → List String →
    Except FSErr Unit × Store × List Call
  | st, [] => (.ok (), st, [])
  | st, dp :: rest =>
    if dp ≠ "/" then
      match isdir fs st dp with
      | (.ok true, t1) =>
        match deleteFileDir st (_base fs.base dp) false with
        | .ok st2 =>
          match cleanup fs st2 rest with
          | (r, st3, t') => (r, st3, t1 ++ [.delete (_base fs.base dp) false] ++ t')
        | .error _e =>
          match cleanup fs st rest with
          | (r, st3, t') => (r, st3, t1 ++ [.delete (_base fs.base dp) false] ++ t')
      | (.ok false, t1) =>
        match cleanup fs st rest with
        | (r, st3, t') => (r, st3, t1 ++ t')
      | (.error e, t1) => (.error e, st, t1)
    else cleanup fs st rest

/-- `HadoopFS.removedir` (src/fs/hadoop.py:321-357). -/
def removedir (fs : HadoopFSState) (st : Store) (path : String)
    (recursive force : Bool) :
    Except FSErr Unit × HadoopFSState × Store × List Call :=
  let hdfs_path := _base fs.base path
  if path = "/" then (.error (.removeRoot hdfs_path), fs, st, [])
  else
    match _status st hdfs_path false with
    | (.error e, t1) => (.error e, fs, st, t1)
    | (.ok info, t1) =>
      if !statusIs info .directory then (.error (.resourceInvalid none), fs, st, t1)
      else
        match deleteFileDir st hdfs_path force with
        | .error re =>
          (.error (hdfs_errors re), fs, st, t1 ++ [.delete hdfs_path force])
        | .ok st2 =>
          if recursive then
            match cleanup fs st2 (recursepathRev path) with
            | (r, st3, t2) => (r, fs, st3, t1 ++ [.delete hdfs_path force] ++ t2)
          else (.ok (), fs, st2, t1 ++ [.delete hdfs_path force])

/-- `HadoopFS.rename` (src/fs/hadoop.py:359-392). -/
def rename (fs : HadoopFSState) (st : Store) (src dest : String) :
    Except FSErr Unit × HadoopFSState × Store × List Call :=
  let src_hdfs_path := _base fs.base src
  let dest_hdfs_path := _base fs.base dest
  match _is_dir_file st src_hdfs_path false with
  | (.error e, t1) => (.error e, fs, st, t1)
  | (.ok (src_is_dir, _src_is_file), t1) =>
    match _is_dir_file st dest_hdfs_path false with
    | (.error e, t2) => (.error e, fs, st, t1 ++ t2)
    | (.ok (dest_is_dir, dest_is_file), t2) =>
      match isdir fs st (dirname dest) with
      | (.error e, t3) => (.error e, fs, st, t1 ++ t2 ++ t3)
      | (.ok pd, t3) =>
        if !pd then (.error (.parentDirectoryMissing none), fs, st, t1 ++ t2 ++ t3)
        else
          let dest_exists := dest_is_dir || dest_is_file
          if isprefixPath src_hdfs_path dest_hdfs_path ||
              (dest_exists && (src_is_dir || dest_is_dir) &&
                !(src_is_dir && dest_is_dir)) then
            (.error (.resourceInvalid none), fs, st, t1 ++ t2 ++ t3)
          else
            match renameFileDir st src_hdfs_path dest_hdfs_path with
            | .ok st2 =>
              (.ok (), fs, st2,
                t1 ++ t2 ++ t3 ++ [.rename src_hdfs_path dest_hdfs_path])
            | .error re =>
              (.error (hdfs_errors re), fs, st,
                t1 ++ t2 ++ t3 ++ [.rename src_hdfs_path dest_hdfs_path])

/-- `HadoopFS._list` (src/fs/hadoop.py:449-477): a remote listing, failing
`ResourceNotFoundError` on a missing path and `ResourceInvalidError` when
the listing is the single unnamed self-entry of a file. -/
def _list (st : Store) (hdfs_path : String) :
    Except FSErr (List (String × FileStatus)) × List Call :=
  let p := lstripSlash hdfs_path
  match listDirRemote st p with
  | .error .fileNotFound => (.error .resourceNotFound, [.listDir p])
  | .error re => (.error (hdfs_errors re), [.listDir p])
  | .ok files =>
    if files.length > 0 && files.all (fun f => decide (f.1 = "")) then
      (.error (.resourceInvalid none), [.listDir p])
    else (.ok files, [.listDir p])

/-- `HadoopFS.listdir` (src/fs/hadoop.py:194-258) at the default arguments:
`ilistdirinfo`'s wildcard/full/absolute/dirs_only/files_only filters all
default to the identity, leaving the child names of `_list`. -/
def listdir (fs : HadoopFSState) (st : Store) (path : String) :
    Except FSErr (List String) × HadoopFSState × Store × List Call :=
  match _list st (_base fs.base path) with
  | (.error e, t) => (.error e, fs, st, t)
  | (.ok files, t) => (.ok (files.map (·.1)), fs, st, t)

/-! ## The file handle -/

/-- `_HadoopFileLike` session state (src/fs/hadoop.py:480-493).  Modelled
from the spec: the base class `fs.filelike.FileLikeBase` is not under
`src/`; per §4.5 the handle carries a transfer chunk size with a default. -/
structure HadoopFileLike where
  hdfs_path : String
  eof : Bool
  buffersize : Int
deriving DecidableEq, Repr

/-- `_HadoopFileLike.__init__`: bound to a resolved path, not yet at
end-of-stream. -/
def mkHandle (p : String) : HadoopFileLike :=
  { hdfs_path := p, eof := false, buffersize := 65536 }

/-- `_HadoopFileLike._read` (src/fs/hadoop.py:495-513): at end-of-stream
return `None`; otherwise one remote read of the whole file, then mark
end-of-stream. -/
def _read (st : Store) (f : HadoopFileLike) :
    Except FSErr (Option String) × HadoopFileLike × List Call :=
  if f.eof then (.ok none, f, [])
  else
    match readFile st f.hdfs_path with
    | .ok contents => (.ok (some contents), {f with eof := true}, [.readF f.hdfs_path])
    | .error re => (.error (hdfs_errors re), f, [.readF f.hdfs_path])

/-- `_HadoopFileLike._write` (src/fs/hadoop.py:515-528): one remote append
per invocation. -/
def _write (st : Store) (f : HadoopFileLike) (data : String) :
    Except FSErr Unit × HadoopFileLike × Store × List Call :=
  match appendFile st f.hdfs_path data with
  | .ok st2 => (.ok (), f, st2, [.append f.hdfs_path])
  | .error re => (.error (hdfs_errors re), f, st, [.append f.hdfs_path])

/-- `HadoopFS.open` (src/fs/hadoop.py:104-154).  Note the assignment to the
instance attribute `buffersize` between the directory check and the
existence handling. -/
def openFile (fs : HadoopFSState) (st : Store) (path mode : String)
    (buffering : Int) :
    Except FSErr HadoopFileLike × HadoopFSState × Store × List Call :=
  match _is_dir_file st (_base fs.base path) false with
  | (.error e, t1) => (.error e, fs, st, t1)
  | (.ok (is_dir, is_file), t1) =>
    if is_dir then (.error (.resourceInvalid none), fs, st, t1)
    else
      let fs1 :=
        if buffering = 1 then {fs with buffersize := some 4096}
        else if buffering > 1 then {fs with buffersize := some buffering}
        else fs
      if !is_file then
        if !(strContains mode "w") && !(strContains mode "a") then
          (.error .resourceNotFound, fs1, st, t1)
        else
          match isdir fs1 st (dirname path) with
          | (.error e, t2) => (.error e, fs1, st, t1 ++ t2)
          | (.ok pd, t2) =>
            if !pd then
              match isfile fs1 st (dirname path) with
              | (.error e, t3) => (.error e, fs1, st, t1 ++ t2 ++ t3)
              | (.ok pf, t3) =>
                if pf then (.error (.resourceInvalid none), fs1, st, t1 ++ t2 ++ t3)
                else (.error (.parentDirectoryMissing none), fs1, st, t1 ++ t2 ++ t3)
            else
              match createFile st (_base fs.base path) "" false with
              | .ok st2 =>
                (.ok (mkHandle (_base fs.base path)), fs1, st2,
                  t1 ++ t2 ++ [.create (_base fs.base path) false])
              | .error re =>
                (.error (hdfs_errors re), fs1, st,
                  t1 ++ t2 ++ [.create (_base fs.base path) false])
      else if strContains mode "w" then
        match createFile st (_base fs.base path) "" true with
        | .ok st2 =>
          (.ok (mkHandle (_base fs.base path)), fs1, st2,
            t1 ++ [.create (_base fs.base path) true])
        | .error re =>
          (.error (hdfs_errors re), fs1, st,
            t1 ++ [.create (_base fs.base path) true])
      else (.ok (mkHandle (_base fs.base path)), fs1, st, t1)

/-! ## Properties of path resolution -/

theorem splitSlash_ne_nil (l : List Char) : splitSlash l ≠ [] := by
  induction l with
  | nil => simp [splitSlash]
  | cons c rest ih =>
    simp only [splitSlash]
    split
    · simp
    · cases h : splitSlash rest <;> simp

theorem mem_splitSlash_no_slash :
    ∀ (l : List Char) (p : List Char), p ∈ splitSlash l → '/' ∉ p := by
  intro l
  induction l with
  | nil =>
    intro p hp
    simp [splitSlash] at hp
    simp [hp]
  | cons c rest ih =>
    intro p hp
    simp only [splitSlash] at hp
    by_cases hc : c = '/'
    · rw [if_pos hc] at hp
      rcases List.mem_cons.mp hp with h | h
      · simp [h]
      · exact ih p h
    · rw [if_neg hc] at hp
      rcases h : splitSlash rest with _ | ⟨q, qs⟩
      · exact absurd h (splitSlash_ne_nil rest)
      · rw [h] at hp
        rcases List.mem_cons.mp hp with h2 | h2
        · subst h2
          intro hmem
          rcases List.mem_cons.mp hmem with h3 | h3
          · exact hc h3.symm
          · exact ih q (by rw [h]; exact List.mem_cons_self q qs) h3
        · exact ih p (by rw [h]; exact List.mem_cons_of_mem q h2)

theorem splitSlash_no_slash : ∀ (p : List Char), '/' ∉ p → splitSlash p = [p] := by
  intro p
  induction p with
  | nil => intro _; rfl
  | cons c rest ih =>
    intro h
    have hc : c ≠ '/' := fun hh => h (hh ▸ List.mem_cons_self c rest)
    have hr : '/' ∉ rest := fun hh => h (List.mem_cons_of_mem c hh)
    simp only [splitSlash, if_neg hc, ih hr]

theorem splitSlash_append_slash :
    ∀ (p t : List Char), '/' ∉ p → splitSlash (p ++ '/' :: t) = p :: splitSlash t := by
  intro p
  induction p with
  | nil => intro t _; simp [splitSlash]
  | cons c rest ih =>
    intro t h
    have hc : c ≠ '/' := fun hh => h (hh ▸ List.mem_cons_self c rest)
    have hr : '/' ∉ rest := fun hh => h (List.mem_cons_of_mem c hh)
    simp only [List.cons_append, splitSlash, if_neg hc]
    rw [show rest.append ('/' :: t) = rest ++ '/' :: t from rfl, ih t hr]

theorem splitSlash_joinSlash : ∀ (comps : List (List Char)),
    (∀ p ∈ comps, '/' ∉ p) → comps ≠ [] → splitSlash (joinSlash comps) = comps := by
  intro comps
  induction comps with
  | nil => intro _ h; exact absurd rfl h
  | cons p ps ih =>
    intro h _
    cases ps with
    | nil =>
      simp only [joinSlash]
      exact splitSlash_no_slash p (h p (List.mem_cons_self _ _))
    | cons q qs =>
      simp only [joinSlash]
      rw [splitSlash_append_slash p _ (h p (List.mem_cons_self _ _))]
      rw [ih (fun x hx => h x (List.mem_cons_of_mem p hx)) (by simp)]

/-- A segment `normSegs` will keep as-is. -/
def cleanSeg (c : List Char) : Prop := c ≠ [] ∧ c ≠ ['.'] ∧ c ≠ ['.', '.']

theorem mem_normSegs : ∀ (l acc : List (List Char)) (x : List Char),
    x ∈ normSegs acc l → x ∈ acc ∨ (x ∈ l ∧ cleanSeg x) := by
  intro l
  induction l with
  | nil =>
    intro acc x hx
    simp [normSegs] at hx
    exact Or.inl hx
  | cons c rest ih =>
    intro acc x hx
    simp only [normSegs] at hx
    by_cases h1 : c = [] ∨ c = ['.']
    · rw [if_pos h1] at hx
      rcases ih acc x hx with h | h
      · exact Or.inl h
      · exact Or.inr ⟨List.mem_cons_of_mem c h.1, h.2⟩
    · rw [if_neg h1] at hx
      by_cases h2 : c = ['.', '.']
      · rw [if_pos h2] at hx
        rcases ih acc.tail x hx with h | h
        · exact Or.inl (List.mem_of_mem_tail h)
        · exact Or.inr ⟨List.mem_cons_of_mem c h.1, h.2⟩
      · rw [if_neg h2] at hx
        rcases ih (c :: acc) x hx with h | h
        · rcases List.mem_cons.mp h with h3 | h3
          · subst h3
            push_neg at h1
            exact Or.inr ⟨List.mem_cons_self _ _, ⟨h1.1, h1.2, h2⟩⟩
          · exact Or.inl h3
        · exact Or.inr ⟨List.mem_cons_of_mem c h.1, h.2⟩

theorem normSegs_clean_id : ∀ (l acc : List (List Char)),
    (∀ x ∈ l, cleanSeg x) → normSegs acc l = acc.reverse ++ l := by
  intro l
  induction l with
  | nil => intro acc _; simp [normSegs]
  | cons c rest ih =>
    intro acc h
    have hc := h c (List.mem_cons_self _ _)
    simp only [normSegs]
    rw [if_neg (by push_neg; exact ⟨hc.1, hc.2.1⟩), if_neg hc.2.2]
    rw [ih (c :: acc) (fun x hx => h x (List.mem_cons_of_mem c hx))]
    simp

theorem joinSlash_head : ∀ (comps : List (List Char)),
    (∀ p ∈ comps, p ≠ [] ∧ '/' ∉ p) → (joinSlash comps).head? ≠ some '/' := by
  intro comps h
  cases comps with
  | nil => simp [joinSlash]
  | cons p ps =>
    have hp := h p (List.mem_cons_self _ _)
    have ha : ∃ a as, p = a :: as := by
      cases p with
      | nil => exact absurd rfl hp.1
      | cons a as => exact ⟨a, as, rfl⟩
    rcases ha with ⟨a, as, rfl⟩
    have haq : a ≠ '/' := by
      intro hh
      exact hp.2 (by simp [hh])
    cases ps with
    | nil => simpa [joinSlash] using haq
    | cons q qs => simpa [joinSlash] using haq

theorem dropWhile_slash_eq_self : ∀ (l : List Char), l.head? ≠ some '/' →
    l.dropWhile (· = '/') = l := by
  intro l h
  cases l with
  | nil => rfl
  | cons c cs =>
    have hc : c ≠ '/' := fun hh => h (by simp [hh])
    simp [List.dropWhile_cons, hc]

theorem head_dropWhile_slash :
    ∀ (l : List Char), (l.dropWhile (· = '/')).head? ≠ some '/' := by
  intro l
  induction l with
  | nil => simp
  | cons c cs ih =>
    by_cases hc : c = '/'
    · simpa [List.dropWhile_cons, hc] using ih
    · simp [List.dropWhile_cons, hc]

/-- The canonical form `_base` produces: collapsed, slash-free-joined,
leading-separator-free. -/
def canon (d : List Char) : List Char := joinSlash (normSegs [] (splitSlash d))

theorem canon_elems : ∀ (d x : List Char),
    x ∈ normSegs [] (splitSlash d) → x ≠ [] ∧ '/' ∉ x ∧ cleanSeg x := by
  intro d x hx
  rcases mem_normSegs (splitSlash d) [] x hx with h | h
  · simp at h
  · exact ⟨h.2.1, mem_splitSlash_no_slash d x h.1, h.2⟩

theorem canon_head (d : List Char) : (canon d).head? ≠ some '/' := by
  unfold canon
  exact joinSlash_head _ (fun x hx => ⟨(canon_elems d x hx).1, (canon_elems d x hx).2.1⟩)

theorem normSegs_nil_skip (acc : List (List Char)) (l : List (List Char)) :
    normSegs acc ([] :: l) = normSegs acc l := by
  simp [normSegs]

theorem string_eq_of_data {a b : String} (h : a.data = b.data) : a = b := by
  cases a; cases b; simp_all

theorem canon_idem (d : List Char) : canon (canon d) = canon d := by
  unfold canon
  rcases h : normSegs [] (splitSlash d) with _ | ⟨p, ps⟩
  · rfl
  · have helems : ∀ x ∈ p :: ps, x ≠ [] ∧ '/' ∉ x ∧ cleanSeg x := by
      intro x hx
      exact canon_elems d x (by rw [h]; exact hx)
    rw [splitSlash_joinSlash (p :: ps) (fun x hx => (helems x hx).2.1) (by simp)]
    rw [normSegs_clean_id (p :: ps) [] (fun x hx => (helems x hx).2.2)]
    simp

/-- Evaluation of `_base` at the trivial base `"/"`. -/
theorem _base_slash_data (p : String) :
    (_base "/" p).data = canon (p.data.dropWhile (· = '/')) := by
  have hd := head_dropWhile_slash p.data
  unfold _base
  rw [if_neg (by decide : ¬("/" : String) = "")]
  show (lstripSlash (normpath (osPathJoin "/" (lstripSlash p)))).data = _
  have h1 : osPathJoin "/" (lstripSlash p) = ⟨'/' :: p.data.dropWhile (· = '/')⟩ := by
    show (⟨joinChars ['/'] (p.data.dropWhile (· = '/'))⟩ : String) = _
    unfold joinChars
    rw [if_neg hd]
    rw [if_neg (by simp : ¬(['/'] : List Char) = [])]
    rw [if_pos (by rfl : (['/'] : List Char).getLast? = some '/')]
    rfl
  rw [h1]
  show (normChars ('/' :: p.data.dropWhile (· = '/'))).dropWhile (· = '/') = _
  unfold normChars
  rw [if_pos (by rfl : ('/' :: p.data.dropWhile (· = '/')).head? = some '/')]
  rw [show splitSlash ('/' :: p.data.dropWhile (· = '/')) =
    [] :: splitSlash (p.data.dropWhile (· = '/')) by simp [splitSlash]]
  rw [normSegs_nil_skip]
  rw [List.dropWhile_cons]
  rw [if_pos (by simp)]
  exact dropWhile_slash_eq_self _ (canon_head _)

/-- Evaluation of `_base` at an empty base. -/
theorem _base_empty_data (p : String) :
    (_base "" p).data = canon (p.data.dropWhile (· = '/')) := by
  have hd := head_dropWhile_slash p.data
  unfold _base
  rw [if_pos rfl]
  show normChars (p.data.dropWhile (· = '/')) = _
  unfold normChars
  rw [if_neg hd]
  rfl

theorem lstripSlash_idem (s : String) :
    lstripSlash (lstripSlash s) = lstripSlash s := by
  apply string_eq_of_data
  show (s.data.dropWhile (· = '/')).dropWhile (· = '/') = s.data.dropWhile (· = '/')
  exact dropWhile_slash_eq_self _ (head_dropWhile_slash _)

/-- Resolved paths never carry a leading separator, so the `lstrip` some
call sites re-apply is the identity on them. -/
theorem lstripSlash_base (b p : String) : lstripSlash (_base b p) = _base b p := by
  by_cases hb : b = ""
  · subst hb
    apply string_eq_of_data
    show (_base "" p).data.dropWhile (· = '/') = (_base "" p).data
    rw [_base_empty_data]
    exact dropWhile_slash_eq_self _ (canon_head _)
  · unfold _base
    rw [if_neg hb]
    exact lstripSlash_idem _

/-! ## Evaluation lemmas for the status probes -/

theorem lookup_none_of_typeAt {st : Store} {p : String} (h : typeAt st p = none) :
    st.entries.lookup p = none := by
  cases hl : st.entries.lookup p with
  | none => rfl
  | some v => simp [typeAt, hl] at h

theorem _status_eval (st : Store) (hp : String) (safe : Bool)
    (h : lstripSlash hp ∉ st.statusFaults) :
    _status st hp safe =
      ((match remoteStat st (lstripSlash hp) with
        | some s => .ok (some s)
        | none => if safe then .ok none else .error .resourceNotFound),
       [.getStatus (lstripSlash hp)]) := by
  unfold _status getFileDirStatus
  simp only [if_neg h]
  cases hr : remoteStat st (lstripSlash hp) with
  | some s => rfl
  | none => cases safe <;> rfl

theorem _is_dir_file_eval (st : Store) (hp : String) (safe : Bool)
    (h : lstripSlash hp ∉ st.statusFaults) :
    _is_dir_file st hp safe =
      (.ok (statusIs (remoteStat st (lstripSlash hp)) .directory,
            statusIs (remoteStat st (lstripSlash hp)) .file),
       [.getStatus (lstripSlash hp)]) := by
  unfold _is_dir_file
  rw [_status_eval st hp true h]
  cases hr : remoteStat st (lstripSlash hp) <;> rfl

theorem isdir_eval (fs : HadoopFSState) (st : Store) (path : String)
    (h : lstripSlash (_base fs.base path) ∉ st.statusFaults) :
    isdir fs st path =
      (.ok (statusIs (remoteStat st (lstripSlash (_base fs.base path))) .directory),
       [.getStatus (lstripSlash (_base fs.base path))]) := by
  unfold isdir
  rw [_status_eval st (_base fs.base path) true h]
  cases hr : remoteStat st (lstripSlash (_base fs.base path)) <;> rfl

theorem deleteFileDir_faults :
    ∀ (st : Store) (p : String) (r : Bool) (st' : Store),
      deleteFileDir st p r = .ok st' → st'.statusFaults = st.statusFaults := by
  intro st p r st' h
  unfold deleteFileDir at h
  rcases hl : st.entries.lookup p with _ | ⟨t, c⟩
  · rw [hl] at h
    cases h
    rfl
  · rw [hl] at h
    cases t
    · cases h
      rfl
    · by_cases hc : !r && st.entries.any (fun e => isUnder p e.1)
      · rw [if_pos hc] at h
        cases h
      · rw [if_neg hc] at h
        cases h
        rfl

/-- C1, counterexample: with the non-trivial base `"/svc"`, resolving the
already-resolved form of `"/a"` prefixes the base a second time, so
resolution is not idempotent as claimed. -/
theorem C1_counterexample :
    ¬ _base "/svc" (_base "/svc" "/a") = _base "/svc" "/a" := by decide

/-- C1 (amended): path resolution is idempotent when the configured base is
the trivial `"/"` (or empty): `_base(_base(p)) = _base(p)` for every path
`p`.  With a non-trivial base the claim fails (see the counterexample),
because `_base` joins the base onto its own output again. -/
theorem C1_base_idempotent_for_trivial_base (p : String) :
    _base "/" (_base "/" p) = _base "/" p ∧ _base "" (_base "" p) = _base "" p := by
  constructor
  · apply string_eq_of_data
    rw [_base_slash_data, _base_slash_data]
    rw [dropWhile_slash_eq_self _ (canon_head _)]
    exact canon_idem _
  · apply string_eq_of_data
    rw [_base_empty_data, _base_empty_data]
    rw [dropWhile_slash_eq_self _ (canon_head _)]
    exact canon_idem _

/-- C2: the claim says `rename` raises `ResourceNotFoundError` when the
source is missing, as the method's own docstring promises.  The code never
does: `_is_dir_file` drops its `safe=False`, the missing source classifies
as `(False, False)`, and the remote rename is issued silently.  Evaluation
at a missing source over a root directory: the call succeeds and the trace
ends with the remote rename. -/
theorem C2_missing_source_rename_issues_remote_call :
    rename ⟨"/", (), none⟩ ⟨[("", (RType.directory, ""))], []⟩ "/missing" "/dst" =
      (.ok (), ⟨"/", (), none⟩, ⟨[("", (RType.directory, ""))], []⟩,
       [.getStatus "missing", .getStatus "dst", .getStatus "", .rename "missing" "dst"]) := by
  rfl

/-- C3, counterexample: with base `"/svc"`, the path `"."` resolves to the
same remote path as `"/"` (the configured root), yet `removedir` does not
fail `RemoveRootError` — the guard compares the raw argument against the
literal `"/"` — and a remote delete of the root is issued and succeeds. -/
theorem C3_counterexample :
    _base "/svc" "." = _base "/svc" "/" ∧
    removedir ⟨"/svc", (), none⟩ ⟨[("svc", (RType.directory, ""))], []⟩ "." false false =
      (.ok (), ⟨"/svc", (), none⟩, ⟨[], []⟩, [.getStatus "svc", .delete "svc" false]) := by
  exact ⟨by decide, by rfl⟩

/-- C3 (amended): `removedir` fails `RemoveRootError` before issuing any
remote call exactly when the raw path argument is the literal `"/"`, for
every combination of `recursive`/`force`; a path that merely resolves to
the configured root (such as `"."`) bypasses the guard (see the
counterexample). -/
theorem C3_removedir_root_guard (fs : HadoopFSState) (st : Store)
    (recursive force : Bool) :
    removedir fs st "/" recursive force =
      (.error (.removeRoot (_base fs.base "/")), fs, st, []) := rfl

/-- C5: the remote-error translation is total and deterministic and agrees,
payload by payload, with the spec's §4.6 table (rows tried in order); every
translated error carries the original body for diagnostics, so no remote
error is silently swallowed. -/
theorem C5_translation_matches_spec_table (raw message : String)
    (exception : Option String) :
    hdfs_errors (.webhdfs raw message exception) = specErrorTable raw message exception ∧
    carriedMsg (hdfs_errors (.webhdfs raw message exception)) = some raw := by
  refine ⟨rfl, ?_⟩
  show carriedMsg (specErrorTable raw message exception) = some raw
  unfold specErrorTable
  repeat' split
  all_goals rfl

/-- C6: on a handle not yet at end-of-stream, the first `_read` issues
exactly one remote read, returns the entire stored content, and sets the
end-of-stream flag; a subsequent `_read` on the resulting handle returns
the end-of-stream signal (`None`) with no remote call, whatever the store
then holds. -/
theorem C6_read_once_then_eof (st st' : Store) (f : HadoopFileLike) (c : String)
    (h1 : f.eof = false)
    (h2 : st.entries.lookup f.hdfs_path = some (RType.file, c)) :
    _read st f = (.ok (some c), {f with eof := true}, [.readF f.hdfs_path]) ∧
    _read st' {f with eof := true} = (.ok none, {f with eof := true}, []) := by
  constructor
  · unfold _read
    rw [if_neg (by simp [h1])]
    unfold readFile
    rw [h2]
  · unfold _read
    rw [if_pos rfl]

/-- C6, witness: a concrete handle over a one-file store. -/
theorem C6_witness :
    (mkHandle "f").eof = false ∧
    (⟨[("f", (RType.file, "hello"))], []⟩ : Store).entries.lookup "f" =
      some (RType.file, "hello") ∧
    (_read ⟨[("f", (RType.file, "hello"))], []⟩ (mkHandle "f") =
      (.ok (some "hello"), {mkHandle "f" with eof := true}, [.readF "f"]) ∧
     _read ⟨[], []⟩ {mkHandle "f" with eof := true} =
      (.ok none, {mkHandle "f" with eof := true}, [])) := by
  refine ⟨rfl, rfl, ?_⟩
  exact C6_read_once_then_eof _ _ _ _ rfl rfl

/-- C10: `_is_dir_file` returns the same result for both values of its
`safe` parameter (the flag is accepted but never forwarded), and on a path
absent from the store it answers `(False, False)` without raising
`ResourceNotFoundError`, even for `safe=False` — so callers cannot request
a strict probe through it. -/
theorem C10_is_dir_file_ignores_safe (st : Store) (hdfs_path : String)
    (s1 s2 : Bool) :
    _is_dir_file st hdfs_path s1 = _is_dir_file st hdfs_path s2 ∧
    (typeAt st (lstripSlash hdfs_path) = none →
      lstripSlash hdfs_path ∉ st.statusFaults →
      (_is_dir_file st hdfs_path s1).1 = .ok (false, false)) := by
  refine ⟨rfl, fun h1 h2 => ?_⟩
  rw [_is_dir_file_eval st hdfs_path s1 h2]
  have hr : remoteStat st (lstripSlash hdfs_path) = none := by
    unfold remoteStat
    rw [lookup_none_of_typeAt h1]
    rfl
  rw [hr]
  rfl

theorem statusIs_of_typeAt {st : Store} {p : String} {t : RType}
    (h : typeAt st p = some t) : statusIs (remoteStat st p) t = true := by
  unfold typeAt at h
  cases hl : st.entries.lookup p with
  | none => rw [hl] at h; simp at h
  | some v =>
    rw [hl] at h
    simp at h
    unfold remoteStat statusIs
    rw [hl]
    simp [h]

/-- C7, counterexample: renaming the directory `/a` to `/a/b/c` — a
destination inside the source's subtree — fails with
`ParentDirectoryMissingError`, not `ResourceInvalidError`, because the
destination-parent check runs first and `/a/b` does not exist. -/
theorem C7_counterexample :
    isprefixPath (_base "/" "/a") (_base "/" "/a/b/c") = true ∧
    rename ⟨"/", (), none⟩ ⟨[("a", (RType.directory, ""))], []⟩ "/a" "/a/b/c" =
      (.error (.parentDirectoryMissing none), ⟨"/", (), none⟩,
       ⟨[("a", (RType.directory, ""))], []⟩,
       [.getStatus "a", .getStatus "a/b/c", .getStatus "a/b"]) ∧
    (FSErr.parentDirectoryMissing none) ≠ .resourceInvalid none := by
  exact ⟨by decide, by rfl, by decide⟩

/-- C7 (amended): when the resolved destination's parent is an existing
directory (and the status probes do not fault), a rename whose resolved
destination is prefixed by the resolved source fails
`ResourceInvalidError`, and no remote rename call is issued.  When the
destination's parent is missing, `ParentDirectoryMissingError` takes
precedence (see the counterexample). -/
theorem C7_rename_into_own_subtree (fs : HadoopFSState) (st : Store)
    (src dest : String)
    (hpre : isprefixPath (_base fs.base src) (_base fs.base dest) = true)
    (h2 : lstripSlash (_base fs.base src) ∉ st.statusFaults)
    (h3 : lstripSlash (_base fs.base dest) ∉ st.statusFaults)
    (h4 : lstripSlash (_base fs.base (dirname dest)) ∉ st.statusFaults)
    (h5 : typeAt st (lstripSlash (_base fs.base (dirname dest))) =
      some RType.directory) :
    (rename fs st src dest).1 = .error (.resourceInvalid none) ∧
    ∀ a b, Call.rename a b ∉ (rename fs st src dest).2.2.2 := by
  have e1 := _is_dir_file_eval st (_base fs.base src) false h2
  have e2 := _is_dir_file_eval st (_base fs.base dest) false h3
  have e3 := isdir_eval fs st (dirname dest) h4
  have hpd := statusIs_of_typeAt h5
  have heval : rename fs st src dest =
      (.error (.resourceInvalid none), fs, st,
       [.getStatus (lstripSlash (_base fs.base src)),
        .getStatus (lstripSlash (_base fs.base dest)),
        .getStatus (lstripSlash (_base fs.base (dirname dest)))]) := by
    unfold rename
    simp only [e1, e2, e3, hpd, hpre]
    simp
  refine ⟨by rw [heval], fun a b => by rw [heval]; simp⟩

/-- C7, witness: renaming `/a` into its own subtree `/a/b` when the
destination parent `/a` exists as a directory. -/
theorem C7_witness :
    (rename ⟨"/", (), none⟩ ⟨[("", (RType.directory, "")), ("a", (RType.directory, ""))], []⟩
      "/a" "/a/b").1 = .error (.resourceInvalid none) ∧
    ∀ a b, Call.rename a b ∉
      (rename ⟨"/", (), none⟩ ⟨[("", (RType.directory, "")), ("a", (RType.directory, ""))], []⟩
        "/a" "/a/b").2.2.2 :=
  C7_rename_into_own_subtree ⟨"/", (), none⟩
    ⟨[("", (RType.directory, "")), ("a", (RType.directory, ""))], []⟩ "/a" "/a/b"
    (by decide) (by decide) (by decide) (by decide) (by decide)

/-- Every failure of a cleanup *delete* is swallowed: when no ancestor
probe faults, the cleanup loop always completes successfully. -/
theorem cleanup_ok (fs : HadoopFSState) :
    ∀ (ps : List String) (st : Store),
      (∀ dp ∈ ps, lstripSlash (_base fs.base dp) ∉ st.statusFaults) →
      (cleanup fs st ps).1 = .ok () := by
  intro ps
  induction ps with
  | nil => intro st h; rfl
  | cons dp rest ih =>
    intro st h
    have htail : ∀ x ∈ rest, lstripSlash (_base fs.base x) ∉ st.statusFaults :=
      fun x hx => h x (List.mem_cons_of_mem dp hx)
    unfold cleanup
    by_cases hdp : dp = "/"
    · rw [if_neg (fun hne => hne hdp)]
      exact ih st htail
    · rw [if_pos hdp]
      rw [isdir_eval fs st dp (h dp (List.mem_cons_self _ _))]
      cases hb : statusIs (remoteStat st (lstripSlash (_base fs.base dp))) RType.directory
      · rcases hcl : cleanup fs st rest with ⟨r, st3, t'⟩
        have hih := ih st htail
        rw [hcl] at hih
        simp only [hcl]
        exact hih
      · cases hd : deleteFileDir st (_base fs.base dp) false with
        | ok st2 =>
          have hfs : st2.statusFaults = st.statusFaults :=
            deleteFileDir_faults st _ false st2 hd
          have htail2 : ∀ x ∈ rest, lstripSlash (_base fs.base x) ∉ st2.statusFaults := by
            rw [hfs]; exact htail
          rcases hcl : cleanup fs st2 rest with ⟨r, st3, t'⟩
          have hih := ih st2 htail2
          rw [hcl] at hih
          simp only [hd, hcl]
          exact hih
        | error e =>
          rcases hcl : cleanup fs st rest with ⟨r, st3, t'⟩
          have hih := ih st htail
          rw [hcl] at hih
          simp only [hd, hcl]
          exact hih

/-- C8, counterexample: after the primary delete of `/a/b` succeeds, the
existence probe on the ancestor `/a` fails with an unclassified remote
error; the probe sits outside the cleanup's exception handler, so the
failure surfaces to the caller as a translated `FSError` — refuting "every
failure arising in the upward ancestor-cleanup walk is swallowed". -/
theorem C8_counterexample :
    removedir ⟨"/", (), none⟩
      ⟨[("a", (RType.directory, "")), ("a/b", (RType.directory, ""))], ["a"]⟩
      "/a/b" true false =
      (.error (.fsError "injected fault"), ⟨"/", (), none⟩,
       ⟨[("a", (RType.directory, ""))], ["a"]⟩,
       [.getStatus "a/b", .delete "a/b" false, .getStatus "a"]) := by rfl

/-- C8 (amended): failures of the ancestor *delete* calls during the upward
cleanup are swallowed — whenever the ancestor existence probes do not
fault, a recursive `removedir` succeeds exactly when its non-recursive run
does, regardless of how many cleanup deletes fail.  A failing existence
probe, by contrast, surfaces to the caller (see the counterexample). -/
theorem C8_cleanup_swallows_delete_failures (fs : HadoopFSState) (st : Store)
    (path : String) (force : Bool)
    (hprobes : ∀ dp ∈ recursepathRev path,
      lstripSlash (_base fs.base dp) ∉ st.statusFaults)
    (hok : (removedir fs st path false force).1 = .ok ()) :
    (removedir fs st path true force).1 = .ok () := by
  simp only [removedir] at hok ⊢
  by_cases hroot : path = "/"
  · rw [if_pos hroot] at hok
    simp at hok
  · rw [if_neg hroot] at hok ⊢
    rcases hs : _status st (_base fs.base path) false with ⟨r1, t1⟩
    rw [hs] at hok
    cases r1 with
    | error e => simp at hok
    | ok info =>
      simp only [] at hok ⊢
      cases hdir : statusIs info RType.directory with
      | false =>
        rw [hdir] at hok
        simp at hok
      | true =>
        rw [hdir] at hok
        rw [if_neg (by simp)] at hok ⊢
        cases hd : deleteFileDir st (_base fs.base path) force with
        | error re =>
          rw [hd] at hok
          simp at hok
        | ok st2 =>
          have hfs : st2.statusFaults = st.statusFaults :=
            deleteFileDir_faults st _ force st2 hd
          simp only []
          rw [if_pos trivial]
          exact cleanup_ok fs (recursepathRev path) st2 (by rw [hfs]; exact hprobes)

/-- C8, witness: removing `/a/b` recursively when the ancestor `/a` still
holds the file `a/c`: the cleanup delete of `/a` fails non-empty, is
swallowed, and the recursive call succeeds like the non-recursive one. -/
theorem C8_witness :
    (∀ dp ∈ recursepathRev "/a/b",
      lstripSlash (_base "/" dp) ∉
        (⟨[("a", (RType.directory, "")), ("a/b", (RType.directory, "")),
           ("a/c", (RType.file, "x"))], []⟩ : Store).statusFaults) ∧
    (removedir ⟨"/", (), none⟩
      ⟨[("a", (RType.directory, "")), ("a/b", (RType.directory, "")),
        ("a/c", (RType.file, "x"))], []⟩ "/a/b" false false).1 = .ok () ∧
    (removedir ⟨"/", (), none⟩
      ⟨[("a", (RType.directory, "")), ("a/b", (RType.directory, "")),
        ("a/c", (RType.file, "x"))], []⟩ "/a/b" true false).1 = .ok () := by
  refine ⟨by decide, by rfl, ?_⟩
  exact C8_cleanup_swallows_delete_failures ⟨"/", (), none⟩
    ⟨[("a", (RType.directory, "")), ("a/b", (RType.directory, "")),
      ("a/c", (RType.file, "x"))], []⟩ "/a/b" false (by decide) (by rfl)

/-! ## Association-list lemmas for the remote `mkdir -p` -/

theorem lookup_append {α β : Type} [BEq α] (l l' : List (α × β)) (k : α) :
    (l ++ l').lookup k = ((l.lookup k).or (l'.lookup k)) := by
  induction l with
  | nil => simp [List.lookup]
  | cons a t ih =>
    rcases a with ⟨k', v⟩
    cases h : k == k' <;> simp [List.lookup, h, ih]

theorem typeAt_addDir_preserved {st : Store} {q : String} {t : RType} (p : String)
    (h : typeAt st q = some t) : typeAt (addDir st p) q = some t := by
  unfold addDir
  cases hl : st.entries.lookup p with
  | some v => exact h
  | none =>
    unfold typeAt at h ⊢
    simp only []
    rw [lookup_append]
    cases hq : st.entries.lookup q with
    | none => rw [hq] at h; simp at h
    | some w => rw [hq] at h; simpa [Option.or] using h

theorem typeAt_addDir_self {st : Store} {p : String}
    (h : typeAt st p ≠ some RType.file) :
    typeAt (addDir st p) p = some RType.directory := by
  unfold addDir
  cases hl : st.entries.lookup p with
  | some v =>
    unfold typeAt at h ⊢
    rw [hl] at h ⊢
    rcases v with ⟨tv, cv⟩
    cases tv
    · simp at h
    · rfl
  | none =>
    unfold typeAt
    simp only []
    rw [lookup_append, hl]
    simp [List.lookup, Option.or]

theorem typeAt_addDir_ne_file {st : Store} {q : String} (p : String)
    (h : typeAt st q ≠ some RType.file) :
    typeAt (addDir st p) q ≠ some RType.file := by
  unfold addDir
  cases hl : st.entries.lookup p with
  | some v => exact h
  | none =>
    unfold typeAt at h ⊢
    simp only []
    rw [lookup_append]
    cases hq : st.entries.lookup q with
    | some w => rw [hq] at h; simpa [Option.or] using h
    | none =>
      cases hqp : q == p <;> simp [List.lookup, hqp, Option.or]

theorem typeAt_addDirs_preserved {q : String} {t : RType} :
    ∀ (ps : List String) (st : Store), typeAt st q = some t →
      typeAt (addDirs st ps) q = some t := by
  intro ps
  induction ps with
  | nil => intro st h; exact h
  | cons p rest ih =>
    intro st h
    exact ih (addDir st p) (typeAt_addDir_preserved p h)

theorem typeAt_addDirs_ne_file {q : String} :
    ∀ (ps : List String) (st : Store), typeAt st q ≠ some RType.file →
      typeAt (addDirs st ps) q ≠ some RType.file := by
  intro ps
  induction ps with
  | nil => intro st h; exact h
  | cons p rest ih =>
    intro st h
    exact ih (addDir st p) (typeAt_addDir_ne_file p h)

/-- Recording directories along a file-free list of paths makes each of
them a directory. -/
theorem addDirs_post :
    ∀ (ps : List String) (st : Store),
      (∀ a ∈ ps, typeAt st a ≠ some RType.file) →
      ∀ a ∈ ps, typeAt (addDirs st ps) a = some RType.directory := by
  intro ps
  induction ps with
  | nil => intro st h a ha; simp at ha
  | cons p rest ih =>
    intro st h a ha
    rcases List.mem_cons.mp ha with h1 | h1
    · subst h1
      exact typeAt_addDirs_preserved rest (addDir st a)
        (typeAt_addDir_self (h a ha))
    · exact ih (addDir st p)
        (fun x hx => typeAt_addDir_ne_file p (h x (List.mem_cons_of_mem p hx)))
        a h1

theorem typeAt_of_isFileAt_false {st : Store} {a : String}
    (h : isFileAt st a = false) : typeAt st a ≠ some RType.file := by
  unfold isFileAt at h
  unfold typeAt
  cases hl : st.entries.lookup a with
  | none => simp
  | some v =>
    rw [hl] at h
    rcases v with ⟨tv, cv⟩
    cases tv
    · simp at h
    · simp

theorem statusIs_none (t : RType) : statusIs none t = false := rfl

/-- C4, counterexample: on the empty store, `makedir("/a/b/c",
recursive=True)` issues no create call for the ancestor `a`, which is not
yet a directory — the code delegates the whole chain to one remote
recursive mkdir on the leaf instead of decomposing it. -/
theorem C4_counterexample :
    ("a" ∈ strictAncestors (_base "/" "/a/b/c")) ∧
    typeAt (⟨[], []⟩ : Store) "a" ≠ some RType.directory ∧
    makedir ⟨"/", (), none⟩ ⟨[], []⟩ "/a/b/c" true false =
      (.ok none, ⟨"/", (), none⟩,
       ⟨[("a", (RType.directory, "")), ("a/b", (RType.directory, "")),
         ("a/b/c", (RType.directory, ""))], []⟩,
       [.getStatus "a/b/c", .getStatus "a/b", .makeDir "a/b/c"]) ∧
    Call.makeDir "a" ∉
      (makedir ⟨"/", (), none⟩ ⟨[], []⟩ "/a/b/c" true false).2.2.2 := by
  refine ⟨by decide, by decide, by rfl, by decide⟩

/-- C4 (amended): for a resolved path that does not yet exist (and
fault-free probes), `makedir(path, recursive=True)` issues exactly one
remote create call, on the resolved leaf — WebHDFS MKDIRS creates the
missing ancestors server-side, after which every ancestor (and the leaf)
is a directory; a file found at any ancestor position makes the operation
fail with `ResourceInvalidError`, via translation of the remote "Parent
path is not a directory" error. -/
theorem C4_makedir_recursive_single_remote_create (fs : HadoopFSState)
    (st : Store) (path : String) (allow_recreate : Bool)
    (h1 : typeAt st (_base fs.base path) = none)
    (h2 : _base fs.base path ∉ st.statusFaults)
    (h3 : _base fs.base (dirname path) ∉ st.statusFaults) :
    ((strictAncestors (_base fs.base path)).any (fun a => isFileAt st a) = true →
      (makedir fs st path true allow_recreate).1 =
        .error (.resourceInvalid (some "Parent path is not a directory"))) ∧
    ((strictAncestors (_base fs.base path)).any (fun a => isFileAt st a) = false →
      makedir fs st path true allow_recreate =
        (.ok none, fs,
         addDirs st (strictAncestors (_base fs.base path) ++ [_base fs.base path]),
         [.getStatus (_base fs.base path),
          .getStatus (_base fs.base (dirname path)),
          .makeDir (_base fs.base path)]) ∧
      ∀ a ∈ strictAncestors (_base fs.base path) ++ [_base fs.base path],
        typeAt (makedir fs st path true allow_recreate).2.2.1 a =
          some RType.directory) := by
  have hb := lstripSlash_base fs.base path
  have hbp := lstripSlash_base fs.base (dirname path)
  have e1 := _is_dir_file_eval st (_base fs.base path) true
    (by rw [hb]; exact h2)
  rw [hb] at e1
  have e2 := isdir_eval fs st (dirname path)
    (by rw [hbp]; exact h3)
  rw [hbp] at e2
  have hrs : remoteStat st (_base fs.base path) = none := by
    unfold remoteStat
    rw [lookup_none_of_typeAt h1]
    rfl
  rw [hrs] at e1
  constructor
  · intro hany
    have hmd : makeDir st (_base fs.base path) =
        .error (.webhdfs "Parent path is not a directory"
          "Parent path is not a directory" (some "ParentNotDirectoryException")) := by
      unfold makeDir
      rw [if_pos hany]
    unfold makedir
    simp only [e1, statusIs_none, e2, hmd]
    simp [hdfs_errors]
    decide
  · intro hany
    have hmd : makeDir st (_base fs.base path) =
        .ok (addDirs st
          (strictAncestors (_base fs.base path) ++ [_base fs.base path])) := by
      unfold makeDir
      rw [if_neg (by simp [hany])]
      rw [lookup_none_of_typeAt h1]
    have heval : makedir fs st path true allow_recreate =
        (.ok none, fs,
         addDirs st (strictAncestors (_base fs.base path) ++ [_base fs.base path]),
         [.getStatus (_base fs.base path),
          .getStatus (_base fs.base (dirname path)),
          .makeDir (_base fs.base path)]) := by
      unfold makedir
      simp only [e1, statusIs_none, e2, hmd]
      simp
    refine ⟨heval, ?_⟩
    rw [heval]
    apply addDirs_post
    intro a ha
    rcases List.mem_append.mp ha with h4 | h4
    · have hfa : isFileAt st a = false := by
        simpa using List.any_eq_false.mp hany a h4
      exact typeAt_of_isFileAt_false hfa
    · rcases List.mem_singleton.mp h4 with rfl
      rw [h1]
      simp

/-- C4, witness: the spec's own scenario, `makedir("/a/b/c",
recursive=True)` on the empty store. -/
theorem C4_witness :
    ((strictAncestors (_base "/" "/a/b/c")).any
      (fun a => isFileAt (⟨[], []⟩ : Store) a) = false) ∧
    (makedir ⟨"/", (), none⟩ ⟨[], []⟩ "/a/b/c" true false =
      (.ok none, ⟨"/", (), none⟩,
       addDirs ⟨[], []⟩ (strictAncestors (_base "/" "/a/b/c") ++ [_base "/" "/a/b/c"]),
       [.getStatus (_base "/" "/a/b/c"), .getStatus (_base "/" (dirname "/a/b/c")),
        .makeDir (_base "/" "/a/b/c")]) ∧
     ∀ a ∈ strictAncestors (_base "/" "/a/b/c") ++ [_base "/" "/a/b/c"],
       typeAt (makedir ⟨"/", (), none⟩ ⟨[], []⟩ "/a/b/c" true false).2.2.1 a =
         some RType.directory) := by
  refine ⟨by decide, ?_⟩
  exact (C4_makedir_recursive_single_remote_create ⟨"/", (), none⟩ ⟨[], []⟩
    "/a/b/c" false (by decide) (by decide) (by decide)).2 (by decide)

/-! ## Frame lemmas: which operations touch the instance state -/

theorem makedir_fs (fs : HadoopFSState) (st : Store) (path : String) (r a : Bool) :
    (makedir fs st path r a).2.1 = fs := by
  unfold makedir
  repeat' (first | split | simp only [])

theorem removedir_fs (fs : HadoopFSState) (st : Store) (path : String) (r f : Bool) :
    (removedir fs st path r f).2.1 = fs := by
  unfold removedir
  repeat' (first | split | simp only [])

theorem rename_fs (fs : HadoopFSState) (st : Store) (src dest : String) :
    (rename fs st src dest).2.1 = fs := by
  unfold rename
  repeat' (first | split | simp only [])

theorem getinfo_fs (fs : HadoopFSState) (st : Store) (path : String) :
    (getinfo fs st path).2.1 = fs := by
  unfold getinfo
  repeat' (first | split | simp only [])

theorem listdir_fs (fs : HadoopFSState) (st : Store) (path : String) :
    (listdir fs st path).2.1 = fs := by
  unfold listdir
  repeat' (first | split | simp only [])

-- `open` either leaves the instance untouched or stores the buffering
-- value in the `buffersize` attribute, exactly as the two assignments in
-- the source dictate.
set_option maxHeartbeats 2000000 in
theorem openFile_fs (fs : HadoopFSState) (st : Store) (path mode : String)
    (buffering : Int) :
    (openFile fs st path mode buffering).2.1 = fs ∨
    (openFile fs st path mode buffering).2.1 =
      (if buffering = 1 then {fs with buffersize := some 4096}
       else if buffering > 1 then {fs with buffersize := some buffering}
       else fs) := by
  unfold openFile
  repeat' (first | split | simp only [])
  all_goals (first | (left ; rfl) | (right ; rfl) | (left ; trivial) | (right ; trivial))

/-- C9, counterexample: `open("/f", "r", buffering=2)` writes the instance
attribute `buffersize`, mutating the filesystem facade beyond the root and
transport handle fixed at construction. -/
theorem C9_counterexample :
    (openFile ⟨"/", (), none⟩ ⟨[("f", (RType.file, "x"))], []⟩ "/f" "r" 2).2.1 =
      ⟨"/", (), some 2⟩ ∧
    (⟨"/", (), some 2⟩ : HadoopFSState) ≠ ⟨"/", (), none⟩ := by
  exact ⟨by rfl, by decide⟩

/-- C9 (amended): `makedir`, `removedir`, `rename`, `getinfo` and `listdir`
leave the instance state unchanged, and so does `open` when no buffering
value is supplied (`buffering ≤ 0`); but `open` with `buffering ≥ 1` stores
the buffer size in the instance attribute `buffersize` whenever it reaches
the assignment, so open/read/write/makedir/removedir/rename/stat/list do
not all preserve the facade's state. -/
theorem C9_only_open_buffering_mutates (fs : HadoopFSState) (st : Store)
    (path mode src dest : String) (buffering : Int) (rec force ar : Bool) :
    (makedir fs st path rec ar).2.1 = fs ∧
    (removedir fs st path rec force).2.1 = fs ∧
    (rename fs st src dest).2.1 = fs ∧
    (getinfo fs st path).2.1 = fs ∧
    (listdir fs st path).2.1 = fs ∧
    (buffering ≤ 0 → (openFile fs st path mode buffering).2.1 = fs) ∧
    ((openFile fs st path mode buffering).2.1 = fs ∨
      (1 ≤ buffering ∧ (openFile fs st path mode buffering).2.1 =
        {fs with buffersize := some (if buffering = 1 then 4096 else buffering)})) := by
  refine ⟨makedir_fs fs st path rec ar, removedir_fs fs st path rec force,
    rename_fs fs st src dest, getinfo_fs fs st path, listdir_fs fs st path, ?_, ?_⟩
  · intro hb
    rcases openFile_fs fs st path mode buffering with h | h
    · exact h
    · rw [h, if_neg (by omega), if_neg (by omega)]
  · rcases openFile_fs fs st path mode buffering with h | h
    · exact Or.inl h
    · by_cases h1 : buffering = 1
      · right
        refine ⟨by omega, ?_⟩
        rw [h, if_pos h1, if_pos h1]
      · by_cases h2 : buffering > 1
        · right
          refine ⟨by omega, ?_⟩
          rw [h, if_neg h1, if_pos h2, if_neg h1]
        · left
          rw [h, if_neg h1, if_neg h2]

/-- C9, witness: with no buffering supplied, `open` leaves the instance
state exactly as constructed. -/
theorem C9_witness :
    (-1 : Int) ≤ 0 ∧
    (openFile ⟨"/", (), none⟩ ⟨[("f", (RType.file, "x"))], []⟩ "/f" "r" (-1)).2.1 =
      ⟨"/", (), none⟩ := by
  refine ⟨by decide, ?_⟩
  exact (C9_only_open_buffering_mutates ⟨"/", (), none⟩
    ⟨[("f", (RType.file, "x"))], []⟩ "/f" "r" "/s" "/d" (-1) false false
    false).2.2.2.2.2.1 (by decide)

/-- C10, witness: a probe of a missing path over the empty store. -/
theorem C10_witness :
    typeAt ⟨[], []⟩ (lstripSlash "missing") = none ∧
    lstripSlash "missing" ∉ (⟨[], []⟩ : Store).statusFaults ∧
    _is_dir_file ⟨[], []⟩ "missing" false = _is_dir_file ⟨[], []⟩ "missing" true ∧
    (_is_dir_file ⟨[], []⟩ "missing" false).1 = .ok (false, false) := by
  have h := C10_is_dir_file_ignores_safe ⟨[], []⟩ "missing" false true
  exact ⟨by decide, by decide, h.1, h.2 (by decide) (by decide)⟩
